import Mathlib

/-!
Verification of the safefile package (atomic file saving).

The development shallowly embeds the package's current revision
(`safefile.go` with the `closeFunc` state machine: `Create`,
`makeTempName`, `Close`/`closeUncommitted`/`closeAfterFailedRename`/
`closeCommitted`/`closeAgainError`, `Commit`, `WriteFile`).

Filesystem primitives (`os.OpenFile`, `os.File.Sync`, `os.File.Close`,
`os.Rename`, `os.Remove`) are modelled over an explicit world state
(the set of existing paths plus the open/closed status of the single
handle under consideration); failures of the environment are injected
through explicit oracle arguments, while failures forced by the world
state (operating on an already-closed handle returns `os.ErrClosed`)
are produced by the model itself.  The Go standard library path
helpers `filepath.Clean`, `filepath.Dir` and `filepath.Join` are
embedded for Unix (separator `/`, empty volume names).
-/

namespace Safefile

/-- Error values occurring in the package.  `errInvalid`, `errExist`,
`errClosed` and `errShortWrite` are the `os`/`io` sentinel errors the
code tests for or returns; `errAlreadyCommitted` is the sentinel the
package's own test `TestDoubleCommit` expects (referenced by the test
file, defined nowhere in the sources); `ioErr n` stands for any other
environment-produced I/O error (permission denied, disk full, ...). -/
inductive GoErr where
  | errInvalid
  | errExist
  | errClosed
  | errShortWrite
  | errAlreadyCommitted
  | ioErr (tag : Nat)
  deriving DecidableEq

deriving instance DecidableEq for Except

/-! ### Go `path/filepath` helpers (Unix rules) -/

/-- Split a character list into components at the separator `/`. -/
def splitSep : List Char → List Char → List (List Char)
  | [], acc => [acc.reverse]
  | c :: cs, acc =>
    if c = '/' then acc.reverse :: splitSep cs [] else splitSep cs (c :: acc)

/-- Process the path components with a backtracking stack, as
`filepath.Clean` does: drop empty and `.` components, resolve `..`
against the stack (dropping it at the root of a rooted path, keeping
it at the front of a relative path).  The stack is kept reversed. -/
def cleanComps (rooted : Bool) : List (List Char) → List (List Char) → List (List Char)
  | [], stack => stack.reverse
  | c :: cs, stack =>
    if c = [] ∨ c = ['.'] then cleanComps rooted cs stack
    else if c = ['.', '.'] then
      match stack with
      | top :: rest =>
        if top = ['.', '.'] then cleanComps rooted cs (['.', '.'] :: top :: rest)
        else cleanComps rooted cs rest
      | [] =>
        if rooted then cleanComps rooted cs []
        else cleanComps rooted cs [['.', '.']]
    else cleanComps rooted cs (c :: stack)

/-- Join the surviving components back with `/` between them. -/
def joinComps : List (List Char) → List Char
  | [] => []
  | [c] => c
  | c :: cs => c ++ '/' :: joinComps cs

/-- Assemble `Clean`'s output from the rootedness flag and the
surviving component stack: root prefix plus joined components, with
`.` substituted for an empty result. -/
def cleanCore (rooted : Bool) (stack : List (List Char)) : List Char :=
  let out := (if rooted then ['/'] else []) ++ joinComps stack
  if out = [] then ['.'] else out

/-- Character-list core of Go's `filepath.Clean` for Unix: shortest
lexically equivalent path (components split at `/`, `.` and empty
components dropped, `..` resolved, `.` returned for an empty result). -/
def cleanList (cs : List Char) : List Char :=
  if cs = [] then ['.']
  else
    let rooted : Bool := cs.head? = some '/'
    cleanCore rooted (cleanComps rooted (splitSep cs []) [])

/-- Go's `filepath.Clean` (Unix). -/
def Clean (p : String) : String := String.mk (cleanList p.toList)

/-- Keep everything up to and including the last separator of the
path (empty if the path has no separator): the slice `path[:i+1]`
taken by Go's `filepath.Dir` before cleaning. -/
def dirSlice (cs : List Char) : List Char :=
  ((cs.reverse.dropWhile (fun c => ¬ c = '/')).reverse)

/-- Go's `filepath.Dir` (Unix, empty volume name): clean of the slice
of the path up to its last separator. -/
def Dir (p : String) : String := String.mk (cleanList (dirSlice p.toList))

/-- Go's `filepath.Join` on two elements (Unix): clean of the
`/`-joined non-empty elements. -/
def Join2 (a b : String) : String :=
  if a ≠ "" then Clean (a ++ "/" ++ b)
  else if b ≠ "" then Clean b
  else ""

/-- Lowercase hexadecimal rendering of a natural number, as
`fmt.Sprintf("%x", n)` produces for a non-negative integer. -/
def hexNat (n : Nat) : String := String.mk (Nat.toDigits 16 n)

/-- The candidate file name `fmt.Sprintf("%x-%d.tmp", now, counter)`. -/
def tmpBase (now counter : Nat) : String :=
  hexNat now ++ "-" ++ toString counter ++ ".tmp"

/-- Translation of `makeTempName`: clean the destination, reject it if
the cleaned form is empty or ends in the separator (`os.ErrInvalid`),
otherwise join the destination's directory with the
timestamp-and-counter candidate name.  The `time.Now().UnixNano()`
read is passed in as the explicit argument `now`. -/
def makeTempName (now : Nat) (origname : String) (counter : Nat) : Except GoErr String :=
  let cleaned := cleanList origname.toList
  if cleaned = [] ∨ cleaned.getLast? = some '/' then .error .errInvalid
  else .ok (Join2 (Dir (String.mk cleaned)) (tmpBase now counter))

/-! ### Filesystem world and primitives -/

/-- Insert a path into the set of existing files. -/
def filesInsert (files : List String) (p : String) : List String :=
  if p ∈ files then files else p :: files

/-- Delete a path from the set of existing files. -/
def filesDelete (files : List String) (p : String) : List String :=
  files.filter (fun q => ¬ q = p)

/-- State of the filesystem and of the one file handle under
consideration: the set of currently existing paths and whether the
handle is still open at the operating-system level (Go's `os.File`
poisons itself on `Close`, so every later method call on it returns
`os.ErrClosed` instead of reaching the file descriptor). -/
structure World where
  files : List String
  handleOpen : Bool
  deriving DecidableEq

/-- Filesystem operations the package invokes, recorded as a trace. -/
inductive Action where
  | aOpen (path : String)
  | aWrite (n : Nat)
  | aSync
  | aClose
  | aRename (oldPath newPath : String)
  | aRemove (path : String)
  deriving DecidableEq

/-- Semantics of `os.OpenFile(path, os.O_RDWR|os.O_CREATE, perm)` as
the source calls it: the environment may inject a failure (`inj`);
absent one, the call succeeds whether or not a file already exists at
`path` — `O_CREATE` without `O_EXCL` opens an existing file rather
than failing, so no `EEXIST` arises from the world state. -/
def fsOpenCreate (w : World) (path : String) (inj : Option GoErr) :
    Except GoErr Unit × World :=
  match inj with
  | some e => (.error e, w)
  | none => (.ok (), { files := filesInsert w.files path, handleOpen := true })

/-- Semantics of `f.Sync()`: returns `os.ErrClosed` on a closed
handle, otherwise the environment's injected result. -/
def fsSync (w : World) (inj : Option GoErr) : Option GoErr × World :=
  if w.handleOpen then (inj, w) else (some .errClosed, w)

/-- Semantics of `f.File.Close()`: returns `os.ErrClosed` on an
already-closed handle; otherwise the handle becomes closed (even when
the environment reports a failure) and the injected result is
returned. -/
def fsClose (w : World) (inj : Option GoErr) : Option GoErr × World :=
  if w.handleOpen then (inj, { w with handleOpen := false }) else (some .errClosed, w)

/-- Semantics of `os.Rename(oldPath, newPath)`: on injected failure
the world is unchanged; on success the old path stops existing and the
new one exists. -/
def fsRename (w : World) (oldPath newPath : String) (inj : Option GoErr) :
    Option GoErr × World :=
  match inj with
  | some e => (some e, w)
  | none => (none, { w with files := filesInsert (filesDelete w.files oldPath) newPath })

/-- Semantics of `os.Remove(path)`: on injected failure the world is
unchanged; on success the path stops existing. -/
def fsRemove (w : World) (path : String) (inj : Option GoErr) :
    Option GoErr × World :=
  match inj with
  | some e => (some e, w)
  | none => (none, { w with files := filesDelete w.files path })

/-! ### The safefile state machine -/

/-- The four close behaviours the source swaps into the `closeFunc`
field: `uncommitted` (`closeUncommitted`, the state of a freshly
created file), `afterFailedRename` (`closeAfterFailedRename`, set when
Commit's rename step failed), `committed` (`closeCommitted`, set when
Commit succeeded) and `againError` (`closeAgainError`, set once a
cleanup close has run). -/
inductive CloseFunc where
  | uncommitted
  | afterFailedRename
  | committed
  | againError
  deriving DecidableEq

/-- The `File` struct: temp-file path (`f.Name()` of the embedded
`os.File`), the destination path `origName`, and the current
`closeFunc`. -/
structure File where
  name : String
  origName : String
  closeFunc : CloseFunc
  deriving DecidableEq

/-- Result of a `Close` or `Commit` call: the updated handle, the
updated world, the returned error and the trace of filesystem
operations the call invoked. -/
structure OpResult where
  file : File
  world : World
  err : Option GoErr
  trace : List Action
  deriving DecidableEq

/-- Environment choices for Commit's three fallible steps. -/
structure CommitOracle where
  syncErr : Option GoErr
  closeErr : Option GoErr
  renameErr : Option GoErr
  deriving DecidableEq

/-- Environment choices for the primitives a `Close` call may hit. -/
structure CloseOracle where
  closeErr : Option GoErr
  removeErr : Option GoErr
  deriving DecidableEq

/-- Translation of `Commit`: sync, then close, then rename, each step
abandoned on the first failure; a failed rename swaps in
`closeAfterFailedRename`, a successful one `closeCommitted`. -/
def commit (f : File) (w : World) (o : CommitOracle) : OpResult :=
  match fsSync w o.syncErr with
  | (some e, w1) => ⟨f, w1, some e, [.aSync]⟩
  | (none, w1) =>
    match fsClose w1 o.closeErr with
    | (some e, w2) => ⟨f, w2, some e, [.aSync, .aClose]⟩
    | (none, w2) =>
      match fsRename w2 f.name f.origName o.renameErr with
      | (some e, w3) =>
        ⟨{ f with closeFunc := .afterFailedRename }, w3, some e,
          [.aSync, .aClose, .aRename f.name f.origName]⟩
      | (none, w3) =>
        ⟨{ f with closeFunc := .committed }, w3, none,
          [.aSync, .aClose, .aRename f.name f.origName]⟩

/-- Translation of `Close`, dispatching on the current `closeFunc`:
`closeUncommitted` closes the handle and removes the temp file (both
attempted), reports the close error first, and swaps in
`closeAgainError`; `closeAfterFailedRename` only removes the temp
file and swaps in `closeAgainError`; `closeCommitted` is a no-op;
`closeAgainError` returns `os.ErrInvalid` and does nothing. -/
def fileClose (f : File) (w : World) (o : CloseOracle) : OpResult :=
  match f.closeFunc with
  | .uncommitted =>
    let r0 := fsClose w o.closeErr
    let r1 := fsRemove r0.2 f.name o.removeErr
    ⟨{ f with closeFunc := .againError }, r1.2,
      (match r0.1 with | some e => some e | none => r1.1),
      [.aClose, .aRemove f.name]⟩
  | .afterFailedRename =>
    let r1 := fsRemove w f.name o.removeErr
    ⟨{ f with closeFunc := .againError }, r1.2, r1.1, [.aRemove f.name]⟩
  | .committed => ⟨f, w, none, []⟩
  | .againError => ⟨f, w, some .errInvalid, []⟩

/-- One iteration of Create's retry loop as seen by the environment:
the value `time.Now().UnixNano()` returns for this iteration and the
injected result of the `os.OpenFile` call. -/
structure CreateStep where
  now : Nat
  openErr : Option GoErr
  deriving DecidableEq

/-- Result of a `Create` call. -/
structure CreateResult where
  res : Except GoErr File
  world : World
  trace : List Action
  deriving DecidableEq

/-- Translation of `Create`'s loop: build a candidate name (failing
immediately on an invalid destination), try to open it; an
`os.IsExist` failure increments the counter and retries, any other
failure is returned at once, success returns the handle with
`closeUncommitted` installed.  The loop consumes one `CreateStep` per
iteration; `none` means the supplied environment schedule ran out
before the loop exited. -/
def createLoop (filename : String) (w : World) (counter : Nat) :
    List CreateStep → Option CreateResult
  | [] => none
  | s :: rest =>
    match makeTempName s.now filename counter with
    | .error e => some ⟨.error e, w, []⟩
    | .ok tempname =>
      match fsOpenCreate w tempname s.openErr with
      | (.error e, w1) =>
        if e = .errExist then
          match createLoop filename w1 (counter + 1) rest with
          | none => none
          | some r => some { r with trace := .aOpen tempname :: r.trace }
        else some ⟨.error e, w1, [.aOpen tempname]⟩
      | (.ok _, w1) =>
        some ⟨.ok ⟨tempname, filename, .uncommitted⟩, w1, [.aOpen tempname]⟩

/-- Translation of `Create`: run the loop with the counter at 0. -/
def create (filename : String) (w : World) (steps : List CreateStep) :
    Option CreateResult :=
  createLoop filename w 0 steps

/-- Environment choices for one `WriteFile` call: the Create-loop
schedule, the byte count and error the single `f.Write(data)` call
reports, and the oracles for the Commit steps and for the deferred
`f.Close()`. -/
structure WriteFileOracle where
  steps : List CreateStep
  written : Nat
  writeErr : Option GoErr
  commitO : CommitOracle
  closeO : CloseOracle
  deriving DecidableEq

/-- Result of a `WriteFile` call: the returned error, the final
world, the trace, and (as an observer field) the handle Create
returned, if Create succeeded. -/
structure WriteFileResult where
  err : Option GoErr
  world : World
  trace : List Action
  created : Option File
  deriving DecidableEq

/-- Translation of `WriteFile`: Create, then one write of the whole
buffer, then Commit, with `defer f.Close()` running on every path
after a successful Create (its own error discarded).  A write error
is returned as-is; a short write (fewer than `dataLen` bytes written
and no error) is turned into `io.ErrShortWrite`; otherwise Commit's
result is returned. -/
def writeFile (filename : String) (dataLen : Nat) (w : World)
    (o : WriteFileOracle) : Option WriteFileResult :=
  match create filename w o.steps with
  | none => none
  | some ⟨.error e, w1, t1⟩ => some ⟨some e, w1, t1, none⟩
  | some ⟨.ok f, w1, t1⟩ =>
    match o.writeErr with
    | some e =>
      let r := fileClose f w1 o.closeO
      some ⟨some e, r.world, t1 ++ .aWrite o.written :: r.trace, some f⟩
    | none =>
      if o.written < dataLen then
        let r := fileClose f w1 o.closeO
        some ⟨some .errShortWrite, r.world, t1 ++ .aWrite o.written :: r.trace, some f⟩
      else
        let c := commit f w1 o.commitO
        let r := fileClose c.file c.world o.closeO
        some ⟨c.err, r.world, t1 ++ .aWrite o.written :: (c.trace ++ r.trace), some f⟩

/-! ### Helper lemmas on the file-set operations -/

theorem mem_filesInsert (fs : List String) (p q : String) :
    q ∈ filesInsert fs p ↔ q = p ∨ q ∈ fs := by
  unfold filesInsert
  split
  · constructor
    · exact fun h => Or.inr h
    · rintro (rfl | h) <;> assumption
  · simp [List.mem_cons]

theorem mem_filesDelete (fs : List String) (p q : String) :
    q ∈ filesDelete fs p ↔ q ∈ fs ∧ q ≠ p := by
  simp [filesDelete, List.mem_filter]

theorem not_mem_filesDelete_self (fs : List String) (p : String) :
    p ∉ filesDelete fs p := by
  simp [mem_filesDelete]

/-- The no-op behaviour of `Close` on a committed handle, shared by
the proofs below: nothing happens, nothing is returned. -/
theorem fileClose_committed (g : File) (w : World) (o : CloseOracle)
    (h : g.closeFunc = .committed) : fileClose g w o = ⟨g, w, none, []⟩ := by
  obtain ⟨n, orig, cf⟩ := g
  cases h
  rfl

/-- The error behaviour of `Close` once `closeAgainError` has been
swapped in: `os.ErrInvalid`, no filesystem operations, no change. -/
theorem fileClose_againError (g : File) (w : World) (o : CloseOracle)
    (h : g.closeFunc = .againError) : fileClose g w o = ⟨g, w, some .errInvalid, []⟩ := by
  obtain ⟨n, orig, cf⟩ := g
  cases h
  rfl

/-! ### Claim C6 -/

/-- What a `Close` from the `Open` state does: both the handle close
and the temp-file removal appear in the trace (both are attempted no
matter what), the returned error is the close error when there is
one and the removal error otherwise, `closeAgainError` is swapped in,
the handle ends closed, and a successful removal makes the temp path
stop existing. -/
def closeFromOpenSpec (f : File) (w : World) (o : CloseOracle) : Prop :=
  (fileClose f w o).trace = [.aClose, .aRemove f.name] ∧
  (fileClose f w o).err =
    (match o.closeErr with | some e => some e | none => o.removeErr) ∧
  (fileClose f w o).file = { f with closeFunc := .againError } ∧
  (fileClose f w o).world.handleOpen = false ∧
  (o.removeErr = none → f.name ∉ (fileClose f w o).world.files)

/-- C6: Close called on a handle in the Open state both closes the
underlying file handle and removes the temp file, with both actions
attempted regardless of whether the first fails, and returns the
first error encountered (the close error if non-nil, otherwise the
removal error, otherwise success). -/
theorem c6_close_from_open (f : File) (w : World) (o : CloseOracle)
    (hcf : f.closeFunc = .uncommitted) (hopen : w.handleOpen = true) :
    closeFromOpenSpec f w o := by
  obtain ⟨n, orig, cf⟩ := f
  cases hcf
  obtain ⟨ce, re⟩ := o
  cases ce <;> cases re <;>
    simp [closeFromOpenSpec, fileClose, fsClose, fsRemove, hopen,
      not_mem_filesDelete_self]

/-- Witness: C6 at a concrete handle, world and oracle. -/
theorem c6_close_from_open_witness :
    (⟨"t", "d", .uncommitted⟩ : File).closeFunc = .uncommitted ∧
    (⟨["t"], true⟩ : World).handleOpen = true ∧
    closeFromOpenSpec ⟨"t", "d", .uncommitted⟩ ⟨["t"], true⟩ ⟨none, none⟩ :=
  ⟨rfl, rfl, c6_close_from_open ⟨"t", "d", .uncommitted⟩ ⟨["t"], true⟩ ⟨none, none⟩ rfl rfl⟩

/-! ### Claim C7 -/

/-- What happens after a successful Commit: the handle carries
`closeCommitted`, and any `Close` call from then on returns success,
invokes no filesystem operation and changes neither the handle nor
the world — so the destination and the absence of a temp file
persist across every subsequent `Close`. -/
def closeAfterCommitSpec (f : File) (w : World) (co : CommitOracle) : Prop :=
  (commit f w co).file.closeFunc = .committed ∧
  ∀ o : CloseOracle,
    fileClose (commit f w co).file (commit f w co).world o =
      ⟨(commit f w co).file, (commit f w co).world, none, []⟩

/-- C7: After a successful Commit, every subsequent Close call on the
same handle is a no-op that returns success and performs no
filesystem operations: the destination keeps the newly committed
content and no stray temp file appears or is touched. -/
theorem c7_close_after_commit (f : File) (w : World) (co : CommitOracle)
    (hsucc : (commit f w co).err = none) :
    closeAfterCommitSpec f w co := by
  have hc : (commit f w co).file.closeFunc = .committed := by
    obtain ⟨se, ce, re⟩ := co
    cases hw : w.handleOpen <;> cases se <;> cases ce <;> cases re <;>
      simp_all [commit, fsSync, fsClose, fsRename]
  exact ⟨hc, fun o => fileClose_committed _ _ o hc⟩

/-- Witness: C7 at a concrete successful Commit. -/
theorem c7_close_after_commit_witness :
    (commit ⟨"t", "d", .uncommitted⟩ ⟨["t"], true⟩ ⟨none, none, none⟩).err = none ∧
    closeAfterCommitSpec ⟨"t", "d", .uncommitted⟩ ⟨["t"], true⟩ ⟨none, none, none⟩ :=
  ⟨rfl, c7_close_after_commit ⟨"t", "d", .uncommitted⟩ ⟨["t"], true⟩
    ⟨none, none, none⟩ rfl⟩

/-! ### Claim C10 -/

/-- What repeated `Close` does once a cleanup close has run: the
cleanup close leaves `closeAgainError` installed, and every `Close`
of a handle in that state returns `os.ErrInvalid`, performs no
filesystem operation and leaves handle and world unchanged (so the
handle stays in that state forever). -/
def closeAgainSpec (f : File) (w : World) (o : CloseOracle) : Prop :=
  (fileClose f w o).file.closeFunc = .againError ∧
  ∀ (g : File) (w' : World) (o' : CloseOracle), g.closeFunc = .againError →
    fileClose g w' o' = ⟨g, w', some .errInvalid, []⟩

/-- C10: After a Close call that performed cleanup (a Close from the
Open state, or a Close following a failed rename), every further
Close call on the same handle returns an invalid-operation error and
performs no filesystem operations at all — so the close-and-remove
cleanup side effects execute at most once per handle, and repeated
Close is an error rather than the silent success that repeated
Close-after-Commit gives. -/
theorem c10_close_again (f : File) (w : World) (o : CloseOracle)
    (h : f.closeFunc = .uncommitted ∨ f.closeFunc = .afterFailedRename) :
    closeAgainSpec f w o := by
  constructor
  · obtain ⟨n, orig, cf⟩ := f
    rcases h with h | h <;> cases h <;> rfl
  · exact fun g w' o' hg => fileClose_againError g w' o' hg

/-- Witness: C10 at a concrete cleanup Close. -/
theorem c10_close_again_witness :
    ((⟨"t", "d", .uncommitted⟩ : File).closeFunc = .uncommitted ∨
      (⟨"t", "d", .uncommitted⟩ : File).closeFunc = .afterFailedRename) ∧
    closeAgainSpec ⟨"t", "d", .uncommitted⟩ ⟨["t"], true⟩ ⟨none, none⟩ :=
  ⟨Or.inl rfl,
    c10_close_again ⟨"t", "d", .uncommitted⟩ ⟨["t"], true⟩ ⟨none, none⟩ (Or.inl rfl)⟩

/-! ### Claim C2 -/

/-- What one Commit call from the Open state does, by case on which
step the environment makes fail first: a sync failure stops after the
sync attempt and changes nothing; a close failure stops after sync and
close, leaves the file set unchanged and the handle closed; a rename
failure executes all three steps in order, returns the rename error,
leaves the file set (hence the temp file) unchanged and installs
`closeAfterFailedRename`, from which a subsequent Close only removes
the temp file; a fully successful run executes the three steps in
order, installs `closeCommitted`, and afterwards the temp path no
longer exists while the destination path does. -/
def commitSpec (f : File) (w : World) (o : CommitOracle) : Prop :=
  (o.syncErr.isSome →
    (commit f w o).err = o.syncErr ∧ (commit f w o).trace = [.aSync] ∧
    (commit f w o).file = f ∧ (commit f w o).world = w) ∧
  (o.syncErr = none → o.closeErr.isSome →
    (commit f w o).err = o.closeErr ∧ (commit f w o).trace = [.aSync, .aClose] ∧
    (commit f w o).file = f ∧ (commit f w o).world.files = w.files ∧
    (commit f w o).world.handleOpen = false) ∧
  (o.syncErr = none → o.closeErr = none → o.renameErr.isSome →
    (commit f w o).err = o.renameErr ∧
    (commit f w o).trace = [.aSync, .aClose, .aRename f.name f.origName] ∧
    (commit f w o).file.closeFunc = .afterFailedRename ∧
    (commit f w o).world.files = w.files ∧
    (∀ co : CloseOracle,
      (fileClose (commit f w o).file (commit f w o).world co).trace =
        [.aRemove f.name])) ∧
  (o.syncErr = none → o.closeErr = none → o.renameErr = none →
    (commit f w o).err = none ∧
    (commit f w o).trace = [.aSync, .aClose, .aRename f.name f.origName] ∧
    (commit f w o).file.closeFunc = .committed ∧
    f.name ∉ (commit f w o).world.files ∧
    f.origName ∈ (commit f w o).world.files)

/-- C2: Commit executes exactly three steps in the order sync, close,
rename; a later step is never attempted when an earlier step failed;
if the rename step fails, Commit returns that error, the temp file
still exists on disk, and the handle moves to the FailedRename state
(a subsequent Close only removes the temp file); if the rename
succeeds the handle is Committed and the temp file no longer exists
separately from the destination. -/
theorem c2_commit_three_steps (f : File) (w : World) (o : CommitOracle)
    (hopen : w.handleOpen = true) (hneq : f.name ≠ f.origName) :
    commitSpec f w o := by
  obtain ⟨se, ce, re⟩ := o
  cases se <;> cases ce <;> cases re <;>
    simp_all [commitSpec, commit, fsSync, fsClose, fsRename, fileClose,
      mem_filesInsert, mem_filesDelete]

/-- Witness: C2 at a concrete handle, world and oracle. -/
theorem c2_commit_three_steps_witness :
    (⟨["t"], true⟩ : World).handleOpen = true ∧
    (⟨"t", "d", .uncommitted⟩ : File).name ≠ (⟨"t", "d", .uncommitted⟩ : File).origName ∧
    commitSpec ⟨"t", "d", .uncommitted⟩ ⟨["t"], true⟩ ⟨none, none, none⟩ :=
  ⟨rfl, by decide,
    c2_commit_three_steps ⟨"t", "d", .uncommitted⟩ ⟨["t"], true⟩ ⟨none, none, none⟩
      rfl (by decide)⟩

/-! ### Claim C1 -/

/-- C1: the claim states that the temp path Create claims is
guaranteed distinct from any currently-existing file because the
create operation succeeds only if no file already exists at that
path.  The source calls `os.OpenFile(tempname, os.O_RDWR|os.O_CREATE,
perm)` without `os.O_EXCL`, so the call succeeds on an existing file:
in a world already containing the candidate path `a-0.tmp`
(destination `f`, timestamp 10, counter 0, no injected failure),
Create succeeds and hands out a handle whose temp path is exactly
that pre-existing file, and the `os.IsExist` retry branch never ran
(one single open in the trace). -/
theorem c1_create_claims_existing_file :
    "a-0.tmp" ∈ (⟨["a-0.tmp"], false⟩ : World).files ∧
    create "f" ⟨["a-0.tmp"], false⟩ [⟨10, none⟩] =
      some ⟨.ok ⟨"a-0.tmp", "f", .uncommitted⟩, ⟨["a-0.tmp"], true⟩,
        [.aOpen "a-0.tmp"]⟩ := by
  decide

/-! ### Claim C3 -/

/-- C3: the claim states that a second Commit on an already committed
handle returns the AlreadyFinalized error (the `ErrAlreadyCommitted`
the package's own `TestDoubleCommit` expects).  In the source,
`Commit` performs no already-committed check (and the
`ErrAlreadyCommitted` sentinel the test compares against is defined
nowhere): a concrete run in which the first Commit succeeds has the
second Commit fail at the sync step with the closed-file error — not
`ErrAlreadyCommitted` — while its trace `[.aSync]` shows that no
second rename was attempted. -/
theorem c3_double_commit_wrong_error :
    (commit ⟨"a-0.tmp", "f", .uncommitted⟩ ⟨["a-0.tmp"], true⟩ ⟨none, none, none⟩).err
        = none ∧
    (commit
        (commit ⟨"a-0.tmp", "f", .uncommitted⟩ ⟨["a-0.tmp"], true⟩ ⟨none, none, none⟩).file
        (commit ⟨"a-0.tmp", "f", .uncommitted⟩ ⟨["a-0.tmp"], true⟩ ⟨none, none, none⟩).world
        ⟨none, none, none⟩).err = some .errClosed ∧
    GoErr.errClosed ≠ GoErr.errAlreadyCommitted ∧
    (commit
        (commit ⟨"a-0.tmp", "f", .uncommitted⟩ ⟨["a-0.tmp"], true⟩ ⟨none, none, none⟩).file
        (commit ⟨"a-0.tmp", "f", .uncommitted⟩ ⟨["a-0.tmp"], true⟩ ⟨none, none, none⟩).world
        ⟨none, none, none⟩).trace = [.aSync] := by
  decide

/-! ### Claim C8 -/

/-- C8 counterexample: the claim states that after Commit's close
step fails, no later operation on the handle performs a second close
of the underlying file handle.  In the source a close-step failure
leaves `closeUncommitted` installed, and `closeUncommitted` begins
with `f.File.Close()`: in a concrete run where the environment makes
Commit's close step fail, the subsequent `Close` call's trace
contains a second `aClose` invocation of the underlying handle. -/
theorem c8_second_close_invoked :
    (commit ⟨"t", "d", .uncommitted⟩ ⟨["t"], true⟩ ⟨none, some (.ioErr 0), none⟩).err
        = some (.ioErr 0) ∧
    "t" ∈ (commit ⟨"t", "d", .uncommitted⟩ ⟨["t"], true⟩
        ⟨none, some (.ioErr 0), none⟩).world.files ∧
    Action.aClose ∈
      (fileClose
        (commit ⟨"t", "d", .uncommitted⟩ ⟨["t"], true⟩ ⟨none, some (.ioErr 0), none⟩).file
        (commit ⟨"t", "d", .uncommitted⟩ ⟨["t"], true⟩ ⟨none, some (.ioErr 0), none⟩).world
        ⟨none, none⟩).trace := by
  decide

/-- What actually holds when Commit's close step fails: Commit
returns that error, the file set (hence the temp file) is untouched,
and the underlying handle is closed at the operating-system level
while `closeFunc` stays `closeUncommitted`; a subsequent Close
therefore re-invokes close on the underlying handle, but that
invocation is rejected with the closed-file error (no open handle is
ever closed a second time), and the subsequent Close still removes
the temp file and returns that closed-file error. -/
def commitCloseFailSpec (f : File) (w : World) (o : CommitOracle)
    (co : CloseOracle) : Prop :=
  (commit f w o).err = o.closeErr ∧
  (commit f w o).world.files = w.files ∧
  (commit f w o).world.handleOpen = false ∧
  (commit f w o).file = f ∧
  (fileClose (commit f w o).file (commit f w o).world co).err = some .errClosed ∧
  (fileClose (commit f w o).file (commit f w o).world co).world.handleOpen = false ∧
  (co.removeErr = none →
    f.name ∉ (fileClose (commit f w o).file (commit f w o).world co).world.files)

/-- C8 amended: if Commit's close step (step 2) fails, Commit returns
that error and the temp file still exists; the underlying handle is
already closed at the operating-system level, but the handle object is
not marked closed (`closeFunc` stays `closeUncommitted`), so a
subsequent Close re-invokes close on the underlying handle — the
re-invocation is rejected with the closed-file error rather than
closing anything a second time, and the subsequent Close removes the
temp file and returns the closed-file error. -/
theorem c8_commit_close_fail (f : File) (w : World) (o : CommitOracle)
    (co : CloseOracle) (hcf : f.closeFunc = .uncommitted)
    (hopen : w.handleOpen = true) (hs : o.syncErr = none)
    (hc : o.closeErr.isSome) :
    commitCloseFailSpec f w o co := by
  obtain ⟨n, orig, cf⟩ := f
  cases hcf
  obtain ⟨se, ce, re⟩ := o
  obtain ⟨cce, cre⟩ := co
  cases se <;> cases ce <;> cases cre <;>
    simp_all [commitCloseFailSpec, commit, fsSync, fsClose, fsRemove, fileClose,
      not_mem_filesDelete_self]

/-- Witness: C8 amended at a concrete failing close step. -/
theorem c8_commit_close_fail_witness :
    (⟨"t", "d", .uncommitted⟩ : File).closeFunc = .uncommitted ∧
    (⟨["t"], true⟩ : World).handleOpen = true ∧
    (⟨none, some (.ioErr 0), none⟩ : CommitOracle).syncErr = none ∧
    (⟨none, some (.ioErr 0), none⟩ : CommitOracle).closeErr.isSome ∧
    commitCloseFailSpec ⟨"t", "d", .uncommitted⟩ ⟨["t"], true⟩
      ⟨none, some (.ioErr 0), none⟩ ⟨none, none⟩ :=
  ⟨rfl, rfl, rfl, rfl,
    c8_commit_close_fail ⟨"t", "d", .uncommitted⟩ ⟨["t"], true⟩
      ⟨none, some (.ioErr 0), none⟩ ⟨none, none⟩ rfl rfl rfl rfl⟩

/-! ### Claim C9 -/

/-- A destination `makeTempName` accepts: its cleaned form is neither
empty nor ending in the separator.  The condition does not depend on
the timestamp or the counter, so it is invariant across the retry
loop's iterations. -/
def validDest (p : String) : Prop :=
  ¬ (cleanList p.toList = [] ∨ (cleanList p.toList).getLast? = some '/')

instance (p : String) : Decidable (validDest p) := by
  unfold validDest
  infer_instance

/-- The candidate temp path `makeTempName` produces for a valid
destination at a given timestamp and counter. -/
def tempNameOf (now : Nat) (p : String) (counter : Nat) : String :=
  Join2 (Dir (String.mk (cleanList p.toList))) (tmpBase now counter)

theorem makeTempName_ok (now : Nat) (p : String) (counter : Nat)
    (hv : validDest p) :
    makeTempName now p counter = .ok (tempNameOf now p counter) := by
  unfold makeTempName tempNameOf
  exact if_neg hv

/-- Behaviour of the Create loop across a block of iterations whose
open calls all fail with the already-exists error, followed by one
whose open call succeeds: each collision bumps the counter by one and
the loop exits at the first success, with the counter having advanced
by exactly the number of collisions. -/
theorem createLoop_retry (filename : String) (pre : List CreateStep)
    (hv : validDest filename)
    (hpre : ∀ s ∈ pre, s.openErr = some .errExist) :
    ∀ (w : World) (counter : Nat) (fin : CreateStep), fin.openErr = none →
    ∃ t : List Action,
      createLoop filename w counter (pre ++ [fin]) =
        some ⟨.ok ⟨tempNameOf fin.now filename (counter + pre.length), filename,
                .uncommitted⟩,
              ⟨filesInsert w.files (tempNameOf fin.now filename (counter + pre.length)),
                true⟩, t⟩ ∧
      t.length = pre.length + 1 := by
  induction pre with
  | nil =>
    intro w counter fin hfin
    refine ⟨[.aOpen (tempNameOf fin.now filename counter)], ?_, rfl⟩
    simp [createLoop, makeTempName_ok fin.now filename counter hv, hfin, fsOpenCreate]
  | cons s rest ih =>
    intro w counter fin hfin
    have hs : s.openErr = some .errExist := hpre s (by simp)
    obtain ⟨t, ht, hlen⟩ :=
      ih (fun x hx => hpre x (by simp [hx])) w (counter + 1) fin hfin
    refine ⟨.aOpen (tempNameOf s.now filename counter) :: t, ?_, by simp [hlen]⟩
    have harr : counter + 1 + rest.length = counter + (rest.length + 1) := by omega
    simp only [List.cons_append, createLoop,
      makeTempName_ok s.now filename counter hv, hs, fsOpenCreate]
    rw [harr] at ht
    simp [ht, List.length_cons]

/-- Behaviour of the Create loop when, after any block of
already-exists collisions, an open call fails with any other error:
that error is returned at once, the world is unchanged, and the rest
of the schedule is never consulted. -/
theorem createLoop_other_error (filename : String) (pre : List CreateStep)
    (hv : validDest filename)
    (hpre : ∀ x ∈ pre, x.openErr = some .errExist) :
    ∀ (w : World) (counter : Nat) (s : CreateStep) (rest : List CreateStep)
      (e : GoErr), s.openErr = some e → e ≠ .errExist →
    ∃ t : List Action,
      createLoop filename w counter (pre ++ s :: rest) =
        some ⟨.error e, w, t⟩ ∧ t.length = pre.length + 1 := by
  induction pre with
  | nil =>
    intro w counter s rest e hs he
    refine ⟨[.aOpen (tempNameOf s.now filename counter)], ?_, rfl⟩
    simp [createLoop, makeTempName_ok s.now filename counter hv, hs,
      fsOpenCreate, he]
  | cons x rest' ih =>
    intro w counter s rest e hs he
    have hx : x.openErr = some .errExist := hpre x (by simp)
    obtain ⟨t, ht, hlen⟩ :=
      ih (fun y hy => hpre y (by simp [hy])) w (counter + 1) s rest e hs he
    refine ⟨.aOpen (tempNameOf x.now filename counter) :: t, ?_, by simp [hlen]⟩
    simp only [List.cons_append, createLoop,
      makeTempName_ok x.now filename counter hv, hx, fsOpenCreate]
    simp [ht]

/-- What Create's allocation loop guarantees for a valid destination:
a run of already-exists failures is retried, one counter increment
and one fresh timestamp per collision, for an arbitrary (unbounded)
number of collisions until an open succeeds — the claimed handle then
carries the candidate built from the final timestamp and a counter
equal to the number of collisions — while a run that hits any failure
other than already-exists stops at once with that error, the world
unchanged, no matter what schedule would have followed. -/
def createRetrySpec (filename : String) (w : World) : Prop :=
  (∀ (pre : List CreateStep) (fin : CreateStep),
    (∀ s ∈ pre, s.openErr = some .errExist) → fin.openErr = none →
    ∃ t : List Action,
      create filename w (pre ++ [fin]) =
        some ⟨.ok ⟨tempNameOf fin.now filename pre.length, filename, .uncommitted⟩,
          ⟨filesInsert w.files (tempNameOf fin.now filename pre.length), true⟩, t⟩ ∧
      t.length = pre.length + 1) ∧
  (∀ (pre : List CreateStep) (s : CreateStep) (rest : List CreateStep) (e : GoErr),
    (∀ x ∈ pre, x.openErr = some .errExist) → s.openErr = some e →
    e ≠ .errExist →
    ∃ t : List Action,
      create filename w (pre ++ s :: rest) = some ⟨.error e, w, t⟩ ∧
      t.length = pre.length + 1)

/-- C9: In Create's allocation loop, a creation failure caused by a
file already existing at the candidate path increments the collision
counter and retries with a freshly built candidate (new timestamp,
new counter) without any retry cap, while every other creation
failure (permission denied, directory missing, disk full) is returned
to the caller immediately without retrying. -/
theorem c9_create_retry (filename : String) (w : World)
    (hv : validDest filename) : createRetrySpec filename w := by
  constructor
  · intro pre fin hpre hfin
    have h := createLoop_retry filename pre hv hpre w 0 fin hfin
    simpa [create] using h
  · intro pre s rest e hpre hs he
    have h := createLoop_other_error filename pre hv hpre w 0 s rest e hs he
    simpa [create] using h

/-- Witness: C9 at a concrete valid destination. -/
theorem c9_create_retry_witness :
    validDest "f" ∧ createRetrySpec "f" ⟨[], false⟩ :=
  ⟨by decide, c9_create_retry "f" ⟨[], false⟩ (by decide)⟩

/-! ### Claim C4 -/

/-- Shape of every successful Create result: the handle starts with
`closeUncommitted` installed, remembers the destination as its
original name, and its underlying handle is open. -/
theorem createLoop_ok_shape (filename : String) :
    ∀ (steps : List CreateStep) (w : World) (counter : Nat) (r : CreateResult),
      createLoop filename w counter steps = some r →
      ∀ f : File, r.res = .ok f →
        f.closeFunc = .uncommitted ∧ f.origName = filename ∧
        r.world.handleOpen = true := by
  intro steps
  induction steps with
  | nil =>
    intro w counter r h
    simp [createLoop] at h
  | cons s rest ih =>
    intro w counter r h f hf
    unfold createLoop at h
    rcases hmk : makeTempName s.now filename counter with e | tempname <;> rw [hmk] at h
    · simp only [Option.some.injEq] at h
      rw [← h] at hf
      simp at hf
    · rcases hso : s.openErr with _ | e <;>
        simp only [hso, fsOpenCreate] at h
      · simp only [Option.some.injEq] at h
        rw [← h] at hf
        simp at hf
        rw [← hf]
        simp [← h]
      · by_cases he : e = .errExist
        · rw [if_pos he] at h
          rcases hrec : createLoop filename w (counter + 1) rest with _ | r' <;>
            rw [hrec] at h
          · simp at h
          · simp only [Option.some.injEq] at h
            have hres : r.res = r'.res := by rw [← h]
            have hw : r.world = r'.world := by rw [← h]
            rw [hres] at hf
            have := ih w (counter + 1) r' hrec f hf
            rw [hw]
            exact this
        · rw [if_neg he] at h
          simp only [Option.some.injEq] at h
          rw [← h] at hf
          simp at hf

/-- What one `WriteFile` run does, given the handle `f` that Create
produced for it and assuming the cleanup removal primitive itself
does not fail: the created handle is reported; a short write (fewer
bytes than the buffer, no error) is turned into the ShortWrite error;
a write error is returned as-is; on every path the temp file does not
survive the call (removed by the deferred Close on the failure paths,
renamed onto the destination on the success path); whenever an error
is returned the temp-file removal was invoked before returning; and a
success return means the write was full and all three Commit steps
succeeded, with the destination path existing afterwards. -/
def writeFileSpec (filename : String) (dataLen : Nat) (w : World)
    (o : WriteFileOracle) (f : File) : Prop :=
  ∃ r : WriteFileResult, writeFile filename dataLen w o = some r ∧
    r.created = some f ∧
    (o.writeErr = none → o.written < dataLen → r.err = some .errShortWrite) ∧
    (o.writeErr.isSome → r.err = o.writeErr) ∧
    f.name ∉ r.world.files ∧
    (r.err.isSome → .aRemove f.name ∈ r.trace) ∧
    (r.err = none →
      o.writeErr = none ∧ dataLen ≤ o.written ∧ o.commitO.syncErr = none ∧
      o.commitO.closeErr = none ∧ o.commitO.renameErr = none ∧
      filename ∈ r.world.files)

/-- C4: WriteFile treats a short write (bytes written < buffer length
with no error from the primitive) as a ShortWrite error, and on every
failure path (create, write, short write, or commit failure) the temp
file is cleaned up via Close/Abandon before the error is returned, so
no temp file is left behind; WriteFile returns success only if
creation, the full write, and Commit all succeeded.  (On the
create-failure path nothing was created, so there is nothing to clean
up; the run is conditioned on Create having succeeded with handle
`f`.) -/
theorem c4_writeFile (filename : String) (dataLen : Nat) (w : World)
    (o : WriteFileOracle) (f : File) (w1 : World) (t1 : List Action)
    (hc : create filename w o.steps = some ⟨.ok f, w1, t1⟩)
    (hrem : o.closeO.removeErr = none)
    (hneq : f.name ≠ filename) :
    writeFileSpec filename dataLen w o f := by
  obtain ⟨hcf, horig, hopen⟩ :=
    createLoop_ok_shape filename o.steps w 0 ⟨.ok f, w1, t1⟩ hc f rfl
  obtain ⟨fname, forig, fcf⟩ := f
  simp only at hcf horig
  subst hcf
  subst horig
  simp only [ne_eq] at hneq
  obtain ⟨steps, written, werr, ⟨se, ce, re⟩, ⟨cce, cre⟩⟩ := o
  simp only at hrem
  subst hrem
  simp only at hc ⊢
  rcases werr with _ | e
  · by_cases hlt : written < dataLen
    · cases se <;> cases ce <;> cases re <;> cases cce <;>
        simp_all [writeFileSpec, writeFile, hc, if_pos hlt, commit, fileClose,
          fsSync, fsClose, fsRename, fsRemove, not_mem_filesDelete_self,
          mem_filesInsert, mem_filesDelete]
    · cases se <;> cases ce <;> cases re <;> cases cce <;>
        simp_all [writeFileSpec, writeFile, hc, if_neg hlt, commit, fileClose,
          fsSync, fsClose, fsRename, fsRemove, not_mem_filesDelete_self,
          mem_filesInsert, mem_filesDelete]
  · cases se <;> cases ce <;> cases re <;> cases cce <;>
      simp_all [writeFileSpec, writeFile, hc, commit, fileClose, fsSync,
        fsClose, fsRename, fsRemove, not_mem_filesDelete_self,
        mem_filesInsert, mem_filesDelete]

/-- Witness: C4 at a concrete successful run. -/
theorem c4_writeFile_witness :
    create "f" ⟨[], false⟩
        (⟨[⟨10, none⟩], 5, none, ⟨none, none, none⟩, ⟨none, none⟩⟩ :
          WriteFileOracle).steps =
      some ⟨.ok ⟨"a-0.tmp", "f", .uncommitted⟩, ⟨["a-0.tmp"], true⟩,
        [.aOpen "a-0.tmp"]⟩ ∧
    (⟨[⟨10, none⟩], 5, none, ⟨none, none, none⟩, ⟨none, none⟩⟩ :
        WriteFileOracle).closeO.removeErr = none ∧
    (⟨"a-0.tmp", "f", .uncommitted⟩ : File).name ≠ "f" ∧
    writeFileSpec "f" 5 ⟨[], false⟩
      ⟨[⟨10, none⟩], 5, none, ⟨none, none, none⟩, ⟨none, none⟩⟩
      ⟨"a-0.tmp", "f", .uncommitted⟩ :=
  ⟨by decide, rfl, by decide,
    c4_writeFile "f" 5 ⟨[], false⟩
      ⟨[⟨10, none⟩], 5, none, ⟨none, none, none⟩, ⟨none, none⟩⟩
      ⟨"a-0.tmp", "f", .uncommitted⟩ ⟨["a-0.tmp"], true⟩ [.aOpen "a-0.tmp"]
      (by decide) rfl (by decide)⟩

/-! ### Claim C5 -/

/-- Unfolding equation of `splitSep` on the empty list. -/
theorem splitSep_nil (acc : List Char) : splitSep [] acc = [acc.reverse] := rfl

/-- Unfolding equation of `splitSep` on a non-empty list. -/
theorem splitSep_cons (c : Char) (cs acc : List Char) :
    splitSep (c :: cs) acc =
      if c = '/' then acc.reverse :: splitSep cs [] else splitSep cs (c :: acc) := rfl

/-- Unfolding equation of `cleanComps` on the empty component list. -/
theorem cleanComps_nil (rooted : Bool) (stack : List (List Char)) :
    cleanComps rooted [] stack = stack.reverse := rfl

/-- Unfolding equation of `cleanComps` on a non-empty component list. -/
theorem cleanComps_cons (rooted : Bool) (c : List Char) (cs stack : List (List Char)) :
    cleanComps rooted (c :: cs) stack =
      if c = [] ∨ c = ['.'] then cleanComps rooted cs stack
      else if c = ['.', '.'] then
        match stack with
        | top :: rest =>
          if top = ['.', '.'] then cleanComps rooted cs (['.', '.'] :: top :: rest)
          else cleanComps rooted cs rest
        | [] =>
          if rooted then cleanComps rooted cs []
          else cleanComps rooted cs [['.', '.']]
      else cleanComps rooted cs (c :: stack) := rfl

/-- Every component produced by splitting at the separator is free of
the separator. -/
theorem splitSep_sep_free (cs : List Char) :
    ∀ acc : List Char, (∀ c ∈ acc, ¬ c = '/') →
    ∀ comp ∈ splitSep cs acc, ∀ ch ∈ comp, ¬ ch = '/' := by
  induction cs with
  | nil =>
    intro acc hacc comp hcomp ch hch
    rw [splitSep_nil, List.mem_singleton] at hcomp
    subst hcomp
    exact hacc ch (by simpa using hch)
  | cons c cs ih =>
    intro acc hacc comp hcomp
    by_cases hc : c = '/'
    · rw [splitSep_cons, if_pos hc] at hcomp
      rcases List.mem_cons.mp hcomp with hcomp | hcomp
      · intro ch hch
        subst hcomp
        exact hacc ch (by simpa using hch)
      · exact ih [] (by simp) comp hcomp
    · rw [splitSep_cons, if_neg hc] at hcomp
      refine ih (c :: acc) ?_ comp hcomp
      intro x hx
      rcases List.mem_cons.mp hx with rfl | hx
      · exact hc
      · exact hacc x hx

/-- A stack of components that are all non-empty and separator-free. -/
def goodStack (l : List (List Char)) : Prop :=
  ∀ x ∈ l, ¬ x = [] ∧ ∀ ch ∈ x, ¬ ch = '/'

/-- The component-processing stack of `Clean` only ever holds
non-empty, separator-free components. -/
theorem cleanComps_good (rooted : Bool) (comps : List (List Char)) :
    ∀ stack : List (List Char),
    (∀ comp ∈ comps, ∀ ch ∈ comp, ¬ ch = '/') → goodStack stack →
    goodStack (cleanComps rooted comps stack) := by
  induction comps with
  | nil =>
    intro stack _ hs x hx
    rw [cleanComps_nil] at hx
    exact hs x (by simpa using hx)
  | cons c cs ih =>
    intro stack hcomps hs
    have hcs : ∀ comp ∈ cs, ∀ ch ∈ comp, ¬ ch = '/' :=
      fun comp h => hcomps comp (by simp [h])
    by_cases h1 : c = [] ∨ c = ['.']
    · rw [cleanComps_cons, if_pos h1]
      exact ih stack hcs hs
    · by_cases h2 : c = ['.', '.']
      · rw [cleanComps_cons, if_neg h1, if_pos h2]
        rcases stack with _ | ⟨top, rest⟩
        · change goodStack (if rooted = true then cleanComps rooted cs []
            else cleanComps rooted cs [['.', '.']])
          cases rooted
          · rw [if_neg (by simp)]
            refine ih [['.', '.']] hcs ?_
            intro x hx
            have hx' : x = ['.', '.'] := List.mem_singleton.mp hx
            subst hx'
            refine ⟨by simp, ?_⟩
            intro ch hch
            have hch' : ch = '.' := by simpa using hch
            subst hch'
            decide
          · rw [if_pos rfl]
            exact ih [] hcs (by intro x hx; simp at hx)
        · change goodStack (if top = ['.', '.'] then
              cleanComps rooted cs (['.', '.'] :: top :: rest)
            else cleanComps rooted cs rest)
          by_cases h3 : top = ['.', '.']
          · rw [if_pos h3]
            refine ih (['.', '.'] :: top :: rest) hcs ?_
            intro x hx
            rcases List.mem_cons.mp hx with hx' | hx'
            · subst hx'
              refine ⟨by simp, ?_⟩
              intro ch hch
              have hch' : ch = '.' := by simpa using hch
              subst hch'
              decide
            · exact hs x hx'
          · rw [if_neg h3]
            exact ih rest hcs (fun x hx => hs x (by simp [hx]))
      · rw [cleanComps_cons, if_neg h1, if_neg h2]
        refine ih (c :: stack) hcs ?_
        intro x hx
        rcases List.mem_cons.mp hx with rfl | hx
        · refine ⟨fun hnil => h1 (Or.inl hnil), ?_⟩
          exact hcomps x (by simp)
        · exact hs x hx

/-- Joining a non-empty stack of non-empty separator-free components
yields a non-empty path that does not end in the separator. -/
theorem joinComps_good (l : List (List Char)) :
    goodStack l → l ≠ [] →
    ¬ joinComps l = [] ∧ ¬ (joinComps l).getLast? = some '/' := by
  induction l with
  | nil => intro _ h; exact absurd rfl h
  | cons c cs ih =>
    intro hg _
    rcases cs with _ | ⟨d, ds⟩
    · have hc := hg c (by simp)
      refine ⟨hc.1, ?_⟩
      intro hlast
      have hmem : '/' ∈ c.getLast? := hlast
      obtain ⟨hne, heq⟩ := List.mem_getLast?_eq_getLast hmem
      exact hc.2 '/' (heq ▸ List.getLast_mem hne) rfl
    · have hrest := ih (fun x hx => hg x (by simp [hx])) (by simp)
      have hjoin : joinComps (c :: d :: ds) = c ++ '/' :: joinComps (d :: ds) := rfl
      constructor
      · rw [hjoin]
        rcases hg c (by simp) with ⟨hc1, _⟩
        simp
      · rw [hjoin]
        rw [List.getLast?_append_of_ne_nil _ (by simp)]
        rw [show ('/' :: joinComps (d :: ds)) = ['/'] ++ joinComps (d :: ds) from rfl]
        rw [List.getLast?_append_of_ne_nil _ hrest.1]
        exact hrest.2

/-- Shape of `Clean`'s assembled output over a well-formed component
stack: it is never empty, and it ends in the separator exactly when
it is the root path itself. -/
theorem cleanCore_shape (b : Bool) (st : List (List Char)) (hgood : goodStack st) :
    ¬ cleanCore b st = [] ∧
    ((cleanCore b st).getLast? = some '/' ↔ cleanCore b st = ['/']) := by
  cases b <;> rcases st with _ | ⟨c, cs'⟩
  · constructor <;> simp [cleanCore, joinComps]
  · have hj := joinComps_good (c :: cs') hgood (by simp)
    unfold cleanCore
    simp only [Bool.false_eq_true, if_false, List.nil_append]
    rw [if_neg hj.1]
    refine ⟨hj.1, ?_, ?_⟩
    · intro h; exact absurd h hj.2
    · intro h
      refine absurd ?_ hj.2
      rw [h]
      rfl
  · constructor <;> simp [cleanCore, joinComps]
  · have hj := joinComps_good (c :: cs') hgood (by simp)
    unfold cleanCore
    rw [if_pos rfl, if_neg (by simp)]
    refine ⟨by simp, ?_, ?_⟩
    · rw [List.getLast?_append_of_ne_nil _ hj.1]
      intro h; exact absurd h hj.2
    · intro h
      have hempty : joinComps (c :: cs') = [] := by
        have hlen := congrArg List.length h
        simpa using hlen
      exact absurd hempty hj.1

/-- `Clean` never returns an empty path, and its result ends in the
separator exactly when it is the root path itself. -/
theorem cleanList_shape (cs : List Char) :
    ¬ cleanList cs = [] ∧
    ((cleanList cs).getLast? = some '/' ↔ cleanList cs = ['/']) := by
  by_cases h0 : cs = []
  · subst h0
    constructor <;> decide
  · have hgood : goodStack
        (cleanComps (decide (cs.head? = some '/')) (splitSep cs []) []) :=
      cleanComps_good _ _ [] (splitSep_sep_free cs [] (by simp))
        (by intro x hx; simp at hx)
    have heq : cleanList cs = cleanCore (decide (cs.head? = some '/'))
        (cleanComps (decide (cs.head? = some '/')) (splitSep cs []) []) := by
      unfold cleanList
      rw [if_neg h0]
    rw [heq]
    exact cleanCore_shape _ _ hgood

/-- C5 counterexample: the claim states that every destination that
is empty or ends in a directory separator is rejected with the
InvalidPath error.  `makeTempName` cleans the path before checking:
the empty destination cleans to `.` and the trailing-separator
destination `foo/` cleans to `foo`, and both are accepted (timestamp
10, counter 0 shown). -/
theorem c5_uncleaned_paths_accepted :
    makeTempName 10 "" 0 = .ok "a-0.tmp" ∧
    makeTempName 10 "foo/" 0 = .ok "a-0.tmp" := by
  decide

/-- C5 amended: the InvalidPath rejection applies to the cleaned
destination — `makeTempName` fails with `os.ErrInvalid` exactly when
`filepath.Clean` of the destination is the root path `/` (the only
cleaned path that is empty or ends in a separator) — and for such a
destination Create returns that error immediately, having created
nothing and consulted no further schedule entry. -/
theorem c5_invalid_iff_root (now counter : Nat) (p : String) :
    (makeTempName now p counter = .error .errInvalid ↔ Clean p = "/") ∧
    (∀ (w : World) (s : CreateStep) (rest : List CreateStep), Clean p = "/" →
      create p w (s :: rest) = some ⟨.error .errInvalid, w, []⟩) := by
  have hshape := cleanList_shape p.toList
  have hiff : ∀ n : Nat, ∀ c : Nat,
      makeTempName n p c = .error .errInvalid ↔ Clean p = "/" := by
    intro n c
    unfold makeTempName Clean
    by_cases hroot : cleanList p.toList = ['/']
    · rw [if_pos (Or.inr (hshape.2.mpr hroot)), hroot]
      simp
    · rw [if_neg ?_]
      · constructor
        · intro h; exact absurd h (by simp)
        · intro h
          have : cleanList p.toList = ['/'] := by
            have := congrArg String.data h
            simpa using this
          exact absurd this hroot
      · rintro (h | h)
        · exact hshape.1 h
        · exact hroot (hshape.2.mp h)
  refine ⟨hiff now counter, ?_⟩
  intro w s rest hp
  have herr : makeTempName s.now p 0 = .error .errInvalid := (hiff s.now 0).mpr hp
  simp [create, createLoop, herr]

/-- Witness: the amended C5 at the root destination, discharging the
inner hypothesis at a concrete input. -/
theorem c5_invalid_iff_root_witness :
    Clean "/" = "/" ∧
    create "/" ⟨[], false⟩ [⟨0, none⟩] =
      some ⟨.error .errInvalid, ⟨[], false⟩, []⟩ :=
  ⟨by decide,
    (c5_invalid_iff_root 0 0 "/").2 ⟨[], false⟩ ⟨0, none⟩ [] (by decide)⟩

end Safefile
